import Mathlib

/-!
# Verification of the telegram-claude core

Shallow embedding, in Lean 4, of the core logic of the `telegram-claude`
repository:

* the stream-json event parser of `src/claude.ts` (`createStreamParser`,
  and the chunk loop of `runClaude`);
* the per-key process registry of `src/claude.ts`
  (`runClaude` busy check, cleanup in `finally`, `hasActiveProcess`);
* the submission queue drain loop of `src/bot.ts`
  (`handlePrompt`, `runAndDrain`);
* the renderer split logic of `src/telegram.ts` (`flushText`);
* the formatted-edit fallback of `src/telegram.ts` (`safeEditMessage`).

Strings from the source are modelled as `List Char` where chunk/line
splitting matters (so that splits at arbitrary boundaries are expressible),
and as `String` elsewhere.  `JSON.parse` is not re-implemented: the shape
of a successfully parsed line is captured by the `StreamEvent` inductive,
and the act of parsing is an abstract function `List Char → Option StreamEvent`
(`none` = the line is not valid JSON of a recognised shape), universally
quantified in the theorems.  `Date.now()` is modelled by attaching a
timestamp to each processed line (resp. a clock indexed by the global line
counter), since the parser only ever reads the clock while handling a
specific line.
-/

namespace TelegramClaude

/-- Domain events yielded by the parser (`ClaudeEvent` in `src/claude.ts`).
`cost` (`total_cost_usd`, a JS number) is carried opaquely; it is only ever
copied, never computed with, so it is modelled as `Int`. -/
inductive ClaudeEvent where
  | textDelta (text : String)
  | toolUse (name : String) (input : String)
  | thinkingStart
  | thinkingDone (durationMs : Nat)
  | result (text : String) (sessionId : String) (cost : Int) (durationMs : Nat) (turns : Nat)
  | error (message : String)
deriving DecidableEq, Repr

/-- The `content_block` payload of a `content_block_start` record.
The `id` and `input` fields of a `tool_use` start and the `text`/`thinking`
payloads are ignored by the source, so they are not carried. -/
inductive BlockStart where
  | text
  | toolUse (name : String)
  | thinking
deriving DecidableEq, Repr

/-- The `delta` payload of a `content_block_delta` record. -/
inductive BlockDelta where
  | textDelta (text : String)
  | inputJsonDelta (partialJson : String)
  | thinkingDelta (thinking : String)
  | signatureDelta (signature : String)
deriving DecidableEq, Repr

/-- A successfully JSON-parsed line of the agent's stream-json output
(the `StreamEvent` union in `src/claude.ts`).  `other` collapses the
shapes the parser ignores (`system`/`init`, `assistant`, unknown
`stream_event` types). -/
inductive StreamEvent where
  | blockStart (b : BlockStart)
  | blockDelta (d : BlockDelta)
  | blockStop
  | result (text : String) (sessionId : String) (cost : Int) (durationMs : Nat) (turns : Nat)
  | other
deriving DecidableEq, Repr

/-- The kind of the currently open content block
(`currentBlockType` in `createStreamParser`). -/
inductive BlockType where
  | text
  | toolUse
  | thinking
deriving DecidableEq, Repr

/-- The mutable state captured by the closure returned by
`createStreamParser` in `src/claude.ts`. -/
structure PState where
  hasEmittedContent : Bool
  currentBlockType : Option BlockType
  currentToolName : String
  toolInputJson : String
  thinkingStartTime : Nat
deriving DecidableEq, Repr

/-- The initial parser state (`createStreamParser`'s local variables). -/
def PState.init : PState :=
  { hasEmittedContent := false
    currentBlockType := none
    currentToolName := ""
    toolInputJson := ""
    thinkingStartTime := 0 }

/-- The `Record<string, unknown>` a tool call's concatenated
`input_json_delta` fragments parse to, restricted to the fields
`formatToolInput` reads.  A missing or non-truthy field is `none`. -/
structure ToolInput where
  file_path : Option String := none
  command : Option String := none
  pattern : Option String := none
  url : Option String := none
  query : Option String := none
  description : Option String := none
deriving DecidableEq, Repr

/-- The empty record `{}` used when the concatenated tool-input JSON
fails to parse. -/
def ToolInput.empty : ToolInput := {}

/-- Embeds `formatToolInput` from `src/claude.ts`: short one-line detail for a
tool invocation. -/
def formatToolInput (name : String) (input : ToolInput) : String :=
  if name = "Read" ∨ name = "Write" ∨ name = "Edit" then
    input.file_path.getD ""
  else if name = "Bash" then
    let cmd := input.command.getD ""
    if cmd.length > 80 then (cmd.take 77) ++ "..." else cmd
  else if name = "Glob" ∨ name = "Grep" then
    input.pattern.getD ""
  else if name = "WebFetch" then
    input.url.getD ""
  else if name = "WebSearch" then
    input.query.getD ""
  else if name = "Task" then
    input.description.getD ""
  else
    ""

/-- One step of the stream parser's state machine: handling one
successfully parsed line (`parsed` in `createStreamParser`), observed at
wall-clock time `now` (`Date.now()`).  Returns the updated state and the
`ClaudeEvent`s yielded while handling the line.  `pj` abstracts
`JSON.parse` applied to the concatenated tool-input fragments
(`none` = parse failure, in which case the source falls back to `{}`). -/
def handleEvent (pj : String → Option ToolInput) (now : Nat)
    (st : PState) (ev : StreamEvent) : PState × List ClaudeEvent :=
  match ev with
  | .blockStart b =>
    match b with
    | .text => ({ st with currentBlockType := some .text }, [])
    | .toolUse name =>
        ({ st with currentBlockType := some .toolUse
                   currentToolName := name
                   toolInputJson := "" }, [])
    | .thinking =>
        ({ st with currentBlockType := some .thinking
                   thinkingStartTime := now
                   hasEmittedContent := true }, [.thinkingStart])
  | .blockDelta d =>
    match d with
    | .textDelta t =>
        if st.currentBlockType = some .text then
          ({ st with hasEmittedContent := true }, [.textDelta t])
        else (st, [])
    | .inputJsonDelta pjson =>
        if st.currentBlockType = some .toolUse then
          ({ st with toolInputJson := st.toolInputJson ++ pjson }, [])
        else (st, [])
    | .thinkingDelta _ => (st, [])
    | .signatureDelta _ => (st, [])
  | .blockStop =>
    match st.currentBlockType with
    | some .toolUse =>
        let input := (pj st.toolInputJson).getD ToolInput.empty
        let shortInput := formatToolInput st.currentToolName input
        ({ st with currentBlockType := none, hasEmittedContent := true },
         [.toolUse st.currentToolName shortInput])
    | some .thinking =>
        ({ st with currentBlockType := none },
         [.thinkingDone (now - st.thinkingStartTime)])
    | _ => ({ st with currentBlockType := none }, [])
  | .result t sid c d n => (st, [.result t sid c d n])
  | .other => (st, [])

/-- Run the state machine over a list of timestamped, already-parsed
records (each `content_block_stop`/`content_block_start` sees the clock
value attached to its line). -/
def runEvents (pj : String → Option ToolInput) :
    PState → List (Nat × StreamEvent) → PState × List ClaudeEvent
  | st, [] => (st, [])
  | st, (now, ev) :: rest =>
      ((runEvents pj (handleEvent pj now st ev).1 rest).1,
       (handleEvent pj now st ev).2 ++
         (runEvents pj (handleEvent pj now st ev).1 rest).2)

/-! ## Line level: `parseStreamLines`

A raw line is a `List Char`.  `line.trim()` is modelled by
`trimChars`; `JSON.parse` (plus the shape test performed by the
`if`/`else if` chain) is an abstract `decode : List Char → Option StreamEvent`,
with `none` standing for the `catch { continue }` path. -/

/-- Embeds `String.prototype.trim`, restricted to ASCII whitespace (the only
whitespace the agent's stream-json output contains). -/
def trimChars (l : List Char) : List Char :=
  ((l.dropWhile Char.isWhitespace).reverse.dropWhile Char.isWhitespace).reverse

/-- One iteration of the `for (const line of lines)` loop in
`createStreamParser`'s `parseStreamLines`: trim, skip when empty, skip
when `JSON.parse` fails, otherwise handle the parsed record at time
`now`. -/
def lineStep (decode : List Char → Option StreamEvent)
    (pj : String → Option ToolInput) (now : Nat)
    (st : PState) (line : List Char) : PState × List ClaudeEvent :=
  let t := trimChars line
  if t.isEmpty then (st, [])
  else
    match decode t with
    | none => (st, [])
    | some ev => handleEvent pj now st ev

/-- Runs `parseStreamLines` over a list of timestamped raw lines. -/
def runLinesT (decode : List Char → Option StreamEvent)
    (pj : String → Option ToolInput) :
    PState → List (Nat × List Char) → PState × List ClaudeEvent
  | st, [] => (st, [])
  | st, (now, l) :: ls =>
      ((runLinesT decode pj (lineStep decode pj now st l).1 ls).1,
       (lineStep decode pj now st l).2 ++
         (runLinesT decode pj (lineStep decode pj now st l).1 ls).2)

/-- Attach to each line its processing time: the `k`-th line completed
overall (the global counter starts at `i`) is processed at wall-clock
time `clock` of its index. -/
def stampLines (clock : Nat → Nat) : Nat → List (List Char) → List (Nat × List Char)
  | _, [] => []
  | i, l :: ls => (clock i, l) :: stampLines clock (i + 1) ls

/-- Runs `parseStreamLines` over the lines completed by one chunk, with the
global line counter starting at `i`. -/
def runLines (decode : List Char → Option StreamEvent)
    (pj : String → Option ToolInput) (clock : Nat → Nat)
    (i : Nat) (st : PState) (ls : List (List Char)) : PState × List ClaudeEvent :=
  runLinesT decode pj st (stampLines clock i ls)

/-! ## Chunk level: the `while ((… await reader.read()))` loop of `runClaude`

`buffer += decode(value); const lines = buffer.split("\n");
buffer = lines.pop() ?? ""` — modelled by a left fold that closes the
current line at each `'\n'`. -/

/-- One character of `buffer.split("\n")`: a newline closes the current
line, any other character extends it. -/
def splitStep (acc : List (List Char) × List Char) (c : Char) :
    List (List Char) × List Char :=
  if c = '\n' then (acc.1 ++ [acc.2], []) else (acc.1, acc.2 ++ [c])

/-- Embeds `s.split("\n")` with the trailing element removed and returned
separately: the complete lines and the remainder (the new carry-over
buffer). -/
def splitNL (s : List Char) : List (List Char) × List Char :=
  s.foldl splitStep ([], [])

/-- The chunk loop of `runClaude` (`src/claude.ts`): repeatedly append
the chunk to the carry-over buffer, split off the complete lines, parse
them (threading the parser state and the global line counter), and keep
the remainder.  Returns final counter, parser state, buffer, and all
events yielded. -/
def streamLoop (decode : List Char → Option StreamEvent)
    (pj : String → Option ToolInput) (clock : Nat → Nat) :
    List (List Char) → Nat → PState → List Char →
      Nat × PState × List Char × List ClaudeEvent
  | [], i, st, buf => (i, st, buf, [])
  | c :: cs, i, st, buf =>
      let p := splitNL (buf ++ c)
      let q := runLines decode pj clock i st p.1
      let r := streamLoop decode pj clock cs (i + p.1.length) q.1 p.2
      (r.1, r.2.1, r.2.2.1, q.2 ++ r.2.2.2)

/-- The full parsing pipeline of `runClaude` for one run: feed every
chunk through the loop, then the trailing
`if (buffer.trim()) yield* parseStreamLines([buffer])`
(`lineStep` already yields nothing on a whitespace-only buffer, so it is
applied unconditionally). -/
def runClaudeStream (decode : List Char → Option StreamEvent)
    (pj : String → Option ToolInput) (clock : Nat → Nat)
    (chunks : List (List Char)) : List ClaudeEvent :=
  let r := streamLoop decode pj clock chunks 0 PState.init []
  r.2.2.2 ++ (lineStep decode pj (clock r.1) r.2.1 r.2.2.1).2

/-! ## Chunk-splitting invariance (claim C3) -/

theorem foldl_splitStep_shift (s : List Char) : ∀ (ls : List (List Char)) (cur : List Char),
    s.foldl splitStep (ls, cur) =
      (ls ++ (s.foldl splitStep ([], cur)).1, (s.foldl splitStep ([], cur)).2) := by
  induction s with
  | nil => intro ls cur; simp
  | cons c s ih =>
      intro ls cur
      by_cases h : c = '\n'
      · subst h
        rw [List.foldl_cons, List.foldl_cons]
        have h1 : splitStep (ls, cur) '\n' = (ls ++ [cur], []) := by simp [splitStep]
        have h2 : splitStep ([], cur) '\n' = ([cur], []) := by simp [splitStep]
        rw [h1, h2, ih (ls ++ [cur]) [], ih [cur] []]
        simp [List.append_assoc]
      · rw [List.foldl_cons, List.foldl_cons]
        have h1 : splitStep (ls, cur) c = (ls, cur ++ [c]) := by simp [splitStep, h]
        have h2 : splitStep ([], cur) c = ([], cur ++ [c]) := by simp [splitStep, h]
        rw [h1, h2, ih ls (cur ++ [c]), ih [] (cur ++ [c])]

theorem foldl_splitStep_no_nl : ∀ (buf : List Char) (ls : List (List Char)) (cur : List Char),
    '\n' ∉ buf → buf.foldl splitStep (ls, cur) = (ls, cur ++ buf) := by
  intro buf
  induction buf with
  | nil => intro ls cur _; simp
  | cons c s ih =>
      intro ls cur h
      have hc : ¬ c = '\n' := by
        intro e; exact h (by simp [e])
      have hs : '\n' ∉ s := fun m => h (List.mem_cons_of_mem _ m)
      rw [List.foldl_cons]
      simp only [splitStep, if_neg hc]
      rw [ih ls (cur ++ [c]) hs]
      simp

theorem no_nl_in_splitStep_snd : ∀ (s : List Char) (ls : List (List Char)) (cur : List Char),
    '\n' ∉ cur → '\n' ∉ (s.foldl splitStep (ls, cur)).2 := by
  intro s
  induction s with
  | nil => intro ls cur h; exact h
  | cons c s ih =>
      intro ls cur h
      rw [List.foldl_cons]
      by_cases hc : c = '\n'
      · subst hc
        simp only [splitStep, if_pos rfl]
        exact ih _ [] (by simp)
      · simp only [splitStep, if_neg hc]
        refine ih _ (cur ++ [c]) ?_
        intro m
        rcases List.mem_append.1 m with m | m
        · exact h m
        · simp at m; exact hc m.symm

theorem runLinesT_append (decode : List Char → Option StreamEvent)
    (pj : String → Option ToolInput) :
    ∀ (a b : List (Nat × List Char)) (st : PState),
    runLinesT decode pj st (a ++ b) =
      ((runLinesT decode pj (runLinesT decode pj st a).1 b).1,
       (runLinesT decode pj st a).2 ++
         (runLinesT decode pj (runLinesT decode pj st a).1 b).2) := by
  intro a
  induction a with
  | nil => intro b st; simp [runLinesT]
  | cons p a ih =>
      intro b st
      obtain ⟨now, l⟩ := p
      simp only [List.cons_append, runLinesT, List.append_eq]
      rw [ih b]
      simp [List.append_assoc]

theorem stampLines_append (clock : Nat → Nat) :
    ∀ (a b : List (List Char)) (i : Nat),
    stampLines clock i (a ++ b) =
      stampLines clock i a ++ stampLines clock (i + a.length) b := by
  intro a
  induction a with
  | nil => intro b i; simp [stampLines]
  | cons l a ih =>
      intro b i
      simp only [List.cons_append, stampLines, List.length_cons, List.append_eq]
      rw [ih b (i + 1)]
      have : i + 1 + a.length = i + (a.length + 1) := by omega
      rw [this]

theorem runLines_append (decode : List Char → Option StreamEvent)
    (pj : String → Option ToolInput) (clock : Nat → Nat)
    (a b : List (List Char)) (i : Nat) (st : PState) :
    runLines decode pj clock i st (a ++ b) =
      ((runLines decode pj clock (i + a.length)
          (runLines decode pj clock i st a).1 b).1,
       (runLines decode pj clock i st a).2 ++
         (runLines decode pj clock (i + a.length)
           (runLines decode pj clock i st a).1 b).2) := by
  unfold runLines
  rw [stampLines_append, runLinesT_append]

/-- The chunk loop equals a single pass: starting from a newline-free
carry-over buffer, processing the chunks one by one yields exactly the
lines-and-remainder decomposition of the concatenated input. -/
theorem streamLoop_eq_single (decode : List Char → Option StreamEvent)
    (pj : String → Option ToolInput) (clock : Nat → Nat) :
    ∀ (cs : List (List Char)) (i : Nat) (st : PState) (buf : List Char),
    '\n' ∉ buf →
    streamLoop decode pj clock cs i st buf =
      (i + ((cs.flatten).foldl splitStep ([], buf)).1.length,
       (runLines decode pj clock i st ((cs.flatten).foldl splitStep ([], buf)).1).1,
       ((cs.flatten).foldl splitStep ([], buf)).2,
       (runLines decode pj clock i st ((cs.flatten).foldl splitStep ([], buf)).1).2) := by
  intro cs
  induction cs with
  | nil =>
      intro i st buf h
      simp [streamLoop, runLines, stampLines, runLinesT]
  | cons c cs ih =>
      intro i st buf h
      have hbuf : (buf ++ c).foldl splitStep ([], []) = c.foldl splitStep ([], buf) := by
        rw [List.foldl_append, foldl_splitStep_no_nl buf [] [] h]
        simp
      have hsnd : '\n' ∉ (c.foldl splitStep ([], buf)).2 :=
        no_nl_in_splitStep_snd c [] buf h
      simp only [streamLoop, splitNL, hbuf, List.flatten_cons]
      rw [ih _ _ _ hsnd, List.foldl_append,
        foldl_splitStep_shift (cs.flatten) ((c.foldl splitStep ([], buf)).1)
          ((c.foldl splitStep ([], buf)).2)]
      simp [runLines_append, Nat.add_assoc]

/-- Claim C3: For every byte stream and every partition of it into chunks
(including cuts in the middle of a line), feeding the chunks to the
stream parser one at a time yields exactly the same sequence of
`ClaudeEvent`s, in the same order, as feeding the entire stream as one
chunk.  (`decode` abstracts `JSON.parse` on a single line, `pj` abstracts
`JSON.parse` on the accumulated tool-input fragments, and `clock` gives
the wall-clock time at which the `k`-th completed line is handled; the
statement holds for all of them.) -/
theorem c3_parser_chunking_invariant (decode : List Char → Option StreamEvent)
    (pj : String → Option ToolInput) (clock : Nat → Nat)
    (chunks : List (List Char)) :
    runClaudeStream decode pj clock chunks =
      runClaudeStream decode pj clock [chunks.flatten] := by
  unfold runClaudeStream
  rw [streamLoop_eq_single decode pj clock chunks 0 PState.init [] (by simp),
    streamLoop_eq_single decode pj clock [chunks.flatten] 0 PState.init [] (by simp)]
  simp

/-! ## Malformed lines are skipped (claim C6) -/

/-- A raw line is well formed when it is not whitespace-only and
`JSON.parse` succeeds on its trimmed form. (`JSON.parse("")` throws, so
whitespace-only lines are in particular not valid JSON; the source skips
them before even attempting the parse.) -/
def isWellFormedLine (decode : List Char → Option StreamEvent) (l : List Char) : Bool :=
  !(trimChars l).isEmpty && (decode (trimChars l)).isSome

theorem lineStep_of_not_wellFormed (decode : List Char → Option StreamEvent)
    (pj : String → Option ToolInput) (now : Nat) (st : PState) (l : List Char)
    (h : isWellFormedLine decode l = false) :
    lineStep decode pj now st l = (st, []) := by
  unfold isWellFormedLine at h
  unfold lineStep
  by_cases he : (trimChars l).isEmpty
  · simp [he]
  · simp [he] at h ⊢
    cases hd : decode (trimChars l) with
    | none => rfl
    | some ev => rw [hd] at h; simp at h

/-- Claim C6: A line that does not parse as valid JSON is skipped without
emitting any event and without terminating the stream: for every
sequence of input lines, the parser's final state and emitted events are
exactly those produced by the subsequence of well-formed lines. -/
theorem c6_malformed_lines_skipped (decode : List Char → Option StreamEvent)
    (pj : String → Option ToolInput) (st : PState)
    (tlines : List (Nat × List Char)) :
    runLinesT decode pj st tlines =
      runLinesT decode pj st
        (tlines.filter (fun p => isWellFormedLine decode p.2)) := by
  induction tlines generalizing st with
  | nil => rfl
  | cons p rest ih =>
      obtain ⟨now, l⟩ := p
      by_cases h : isWellFormedLine decode l = true
      · simp only [List.filter_cons, h, if_pos]
        simp only [runLinesT]
        rw [ih]
      · have h' : isWellFormedLine decode l = false := by
          cases hb : isWellFormedLine decode l
          · rfl
          · exact absurd hb h
        simp only [List.filter_cons, h']
        simp only [runLinesT, lineStep_of_not_wellFormed decode pj now st l h']
        simp only [List.nil_append]
        exact ih st

/-! ## Tool-use fragment accumulation (claim C7) -/

/-- Left fold matching `toolInputJson += delta.partial_json`. -/
def concatFragments (l : List String) : String :=
  l.foldl (fun a b => a ++ b) ""

theorem foldl_append_eq_concatFragments : ∀ (l : List String) (s : String),
    l.foldl (fun a b => a ++ b) s = s ++ concatFragments l := by
  intro l
  induction l with
  | nil => intro s; simp [concatFragments]
  | cons f l ih =>
      intro s
      simp only [concatFragments, List.foldl_cons, String.empty_append]
      rw [ih (s ++ f), ih f]
      rw [String.append_assoc]

theorem runEvents_append (pj : String → Option ToolInput) :
    ∀ (a b : List (Nat × StreamEvent)) (st : PState),
    runEvents pj st (a ++ b) =
      ((runEvents pj (runEvents pj st a).1 b).1,
       (runEvents pj st a).2 ++ (runEvents pj (runEvents pj st a).1 b).2) := by
  intro a
  induction a with
  | nil => intro b st; simp [runEvents]
  | cons p a ih =>
      intro b st
      obtain ⟨now, ev⟩ := p
      simp only [List.cons_append, runEvents, List.append_eq]
      rw [ih b]
      simp [List.append_assoc]

/-- Accumulation phase: while a `tool_use` block is open, each
`input_json_delta` fragment is appended to `toolInputJson`, no event is
emitted, and nothing else in the state changes. -/
theorem runEvents_inputJsonDeltas (pj : String → Option ToolInput) :
    ∀ (tfrags : List (Nat × String)) (st : PState),
    st.currentBlockType = some BlockType.toolUse →
    runEvents pj st
        (tfrags.map (fun p => (p.1, StreamEvent.blockDelta (BlockDelta.inputJsonDelta p.2)))) =
      ({ st with toolInputJson :=
          st.toolInputJson ++ concatFragments (tfrags.map Prod.snd) }, []) := by
  intro tfrags
  induction tfrags with
  | nil =>
      intro st h
      simp [runEvents, concatFragments]
  | cons p tfrags ih =>
      intro st h
      obtain ⟨t, f⟩ := p
      simp only [List.map_cons, runEvents, handleEvent, h, if_pos]
      rw [ih _ (by simp)]
      simp only [List.nil_append]
      have : concatFragments (f :: tfrags.map Prod.snd) =
          f ++ concatFragments (tfrags.map Prod.snd) := by
        simp only [concatFragments, List.foldl_cons, String.empty_append]
        rw [foldl_append_eq_concatFragments]
        rfl
      simp only [List.map_cons] at this ⊢
      rw [this, ← String.append_assoc]

/-- Claim C7: For a `tool_use` content block, all `input_json_delta`
fragments observed between its `content_block_start` and
`content_block_stop` are concatenated in order, and exactly one
`tool_use` event is emitted when the block closes; if the concatenated
fragments fail to parse as JSON (`pj … = none`), the event is still
emitted, with the empty-record (hence empty/best-effort) detail, rather
than aborting the stream.  Holds from any prior parser state and for
arbitrary observation times. -/
theorem c7_tool_use_fragments (pj : String → Option ToolInput)
    (st : PState) (name : String) (tfrags : List (Nat × String)) (t0 t1 : Nat) :
    (runEvents pj st
        ((t0, StreamEvent.blockStart (BlockStart.toolUse name)) ::
          tfrags.map (fun p => (p.1, StreamEvent.blockDelta (BlockDelta.inputJsonDelta p.2))) ++
          [(t1, StreamEvent.blockStop)])).2 =
      [ClaudeEvent.toolUse name
        (formatToolInput name
          ((pj (concatFragments (tfrags.map Prod.snd))).getD ToolInput.empty))] ∧
    (pj (concatFragments (tfrags.map Prod.snd)) = none →
      (runEvents pj st
          ((t0, StreamEvent.blockStart (BlockStart.toolUse name)) ::
            tfrags.map (fun p => (p.1, StreamEvent.blockDelta (BlockDelta.inputJsonDelta p.2))) ++
            [(t1, StreamEvent.blockStop)])).2 =
        [ClaudeEvent.toolUse name (formatToolInput name ToolInput.empty)]) := by
  have hstart :
      handleEvent pj t0 st (StreamEvent.blockStart (BlockStart.toolUse name)) =
        ({ st with currentBlockType := some BlockType.toolUse
                   currentToolName := name
                   toolInputJson := "" }, []) := rfl
  have hmain :
      (runEvents pj st
          ((t0, StreamEvent.blockStart (BlockStart.toolUse name)) ::
            tfrags.map (fun p => (p.1, StreamEvent.blockDelta (BlockDelta.inputJsonDelta p.2))) ++
            [(t1, StreamEvent.blockStop)])).2 =
        [ClaudeEvent.toolUse name
          (formatToolInput name
            ((pj (concatFragments (tfrags.map Prod.snd))).getD ToolInput.empty))] := by
    simp only [List.cons_append, runEvents, hstart, List.append_eq]
    rw [runEvents_append,
      runEvents_inputJsonDeltas pj tfrags _ (by rfl)]
    simp [runEvents, handleEvent]
  exact ⟨hmain, fun h => by rw [hmain, h]; rfl⟩

/-! ## Process registry (`userProcesses` in `src/claude.ts`)

`runClaude` registers an `AbortController` plus a completion promise per
key before spawning, rejects a second invocation for a live key, and in
its `finally` block kills the process, deletes the entry and resolves
the completion promise.  A `ProcessEntry` is live iff its controller's
signal is not aborted. -/

/-- The `ProcessEntry` value of the `userProcesses` map: only the
observable `ac.signal.aborted` flag matters (the `done` promise is
modelled by the `cleanupFired` count of the run's teardown). -/
structure ProcEntry where
  aborted : Bool
deriving DecidableEq, Repr

/-- Embeds `userProcesses.get(key)`. -/
def regLookup (reg : List (Nat × ProcEntry)) (key : Nat) : Option ProcEntry :=
  (reg.find? (fun p => p.1 == key)).map Prod.snd

/-- Embeds `userProcesses.set(key, e)` (replace in place, else append — JS `Map`
insertion-order semantics). -/
def regSet (reg : List (Nat × ProcEntry)) (key : Nat) (e : ProcEntry) :
    List (Nat × ProcEntry) :=
  if reg.any (fun p => p.1 == key) then
    reg.map (fun p => if p.1 == key then (key, e) else p)
  else
    reg ++ [(key, e)]

/-- Embeds `userProcesses.delete(key)`. -/
def regDelete (reg : List (Nat × ProcEntry)) (key : Nat) : List (Nat × ProcEntry) :=
  reg.filter (fun p => !(p.1 == key))

/-- The busy-rejection message yielded by `runClaude`. -/
def busyMessage : String := "A Claude process is already running. Use /stop first."

/-- A freshly constructed entry (`new AbortController()` is not aborted). -/
def freshEntry : ProcEntry := ⟨false⟩

/-- Outcome of the entry check and registration prologue of `runClaude`
(`src/claude.ts`): events yielded before any spawn, whether a process is
spawned at all, and the registry afterwards. -/
structure StartResult where
  events : List ClaudeEvent
  spawned : Bool
  reg : List (Nat × ProcEntry)
deriving DecidableEq, Repr

/-- The prologue of `runClaude`: if an entry for the key exists and its
controller is not aborted, yield the busy error and return without
spawning; if it exists but is aborted, await its teardown (`existing.done`)
and then register and spawn; otherwise register and spawn. -/
def runClaudeStart (reg : List (Nat × ProcEntry)) (key : Nat) : StartResult :=
  match regLookup reg key with
  | some e =>
      if e.aborted then
        { events := [], spawned := true, reg := regSet reg key freshEntry }
      else
        { events := [ClaudeEvent.error busyMessage], spawned := false, reg := reg }
  | none => { events := [], spawned := true, reg := regSet reg key freshEntry }

/-- How a spawned run's body can exit, as distinguished by the
`try`/`catch` of `runClaude`: the stdout stream ended and the process
exited with `exitCode` (`completed`), or reading threw — because of
user cancellation, the timeout firing (`timedOut`), or any other error
(`thrown`). -/
inductive ExitPath where
  | completed (exitCode : Int) (stderrText : String)
  | thrown (timedOut : Bool) (stderrText : String)
deriving DecidableEq, Repr

/-- Result of the body-plus-`finally` of a spawned run. -/
structure FinishResult where
  events : List ClaudeEvent
  reg : List (Nat × ProcEntry)
  cleanupFired : Nat
deriving DecidableEq, Repr

/-- The remainder of `runClaude` after a successful spawn: the terminal
events of the `try`/`catch`, then the `finally` block
(`clearTimeout; proc.kill(); await proc.exited; await stderrDrain;
userProcesses.delete(key); resolveCleanup()`), which runs on every exit
path and fires the completion signal exactly once. -/
def runClaudeFinish (reg : List (Nat × ProcEntry)) (key : Nat) (path : ExitPath) :
    FinishResult :=
  match path with
  | .completed exitCode stderrText =>
      { events :=
          if exitCode ≠ 0 then
            [ClaudeEvent.error
              (if stderrText.trim ≠ "" then stderrText.trim
               else s!"Process exited with code {exitCode}")]
          else []
        reg := regDelete reg key
        cleanupFired := 1 }
  | .thrown timedOut stderrText =>
      let reason := if timedOut then "Process timed out." else "Process was stopped."
      let detail := stderrText.trim
      { events := [ClaudeEvent.error (if detail ≠ "" then reason ++ "\n" ++ detail else reason)]
        reg := regDelete reg key
        cleanupFired := 1 }

/-- One whole execution of `runClaude` for a key: the prologue, and — if
it spawned — the body exiting along `path` followed by the `finally`. -/
def runClaudeFull (reg : List (Nat × ProcEntry)) (key : Nat) (path : ExitPath) :
    FinishResult :=
  let s := runClaudeStart reg key
  if s.spawned then
    let f := runClaudeFinish s.reg key path
    { events := s.events ++ f.events, reg := f.reg, cleanupFired := f.cleanupFired }
  else
    { events := s.events, reg := s.reg, cleanupFired := 0 }

theorem regLookup_regDelete (reg : List (Nat × ProcEntry)) (key : Nat) :
    regLookup (regDelete reg key) key = none := by
  unfold regLookup regDelete
  have h : (reg.filter (fun p => !(p.1 == key))).find? (fun p => p.1 == key) = none := by
    rw [List.find?_eq_none]
    intro x hx
    have hm := (List.mem_filter.1 hx).2
    simp only [Bool.not_eq_true'] at hm
    simp [hm]
  rw [h]
  rfl

/-- Claim C1: For every concurrency key, at most one live process handle
exists at any instant: if `runClaude` is invoked while an entry for the
same key is already registered and live (its controller not aborted —
an aborted entry is one whose teardown is already in progress and is
awaited instead), it yields the single busy error event and returns
without spawning a second process, leaving the registry unchanged. -/
theorem c1_busy_key_rejected (reg : List (Nat × ProcEntry)) (key : Nat) (e : ProcEntry)
    (hreg : regLookup reg key = some e) (hlive : e.aborted = false) :
    runClaudeStart reg key =
      { events := [ClaudeEvent.error busyMessage], spawned := false, reg := reg } := by
  unfold runClaudeStart
  rw [hreg]
  simp [hlive]

/-- Witness for C1 at a concrete registry. -/
theorem c1_busy_key_rejected_witness :
    regLookup [(1, freshEntry)] 1 = some freshEntry ∧
    freshEntry.aborted = false ∧
    runClaudeStart [(1, freshEntry)] 1 =
      { events := [ClaudeEvent.error busyMessage], spawned := false,
        reg := [(1, freshEntry)] } :=
  ⟨rfl, rfl, c1_busy_key_rejected [(1, freshEntry)] 1 freshEntry rfl rfl⟩

/-- Claim C9: Every execution of `runClaude` that spawns a process, on
every exit path (normal completion with any exit code, cancellation,
timeout, thrown error), removes the key's entry from the process
registry and fires the completion signal exactly once; no path leaves
the key marked busy. -/
theorem c9_every_exit_path_cleans_up (reg : List (Nat × ProcEntry)) (key : Nat)
    (path : ExitPath) (hsp : (runClaudeStart reg key).spawned = true) :
    (runClaudeFull reg key path).cleanupFired = 1 ∧
    regLookup (runClaudeFull reg key path).reg key = none := by
  unfold runClaudeFull
  simp only [hsp, if_true]
  cases path <;> simp [runClaudeFinish, regLookup_regDelete]

/-- Witness for C9: a fresh key, a run that times out. -/
theorem c9_every_exit_path_cleans_up_witness :
    (runClaudeStart [] 1).spawned = true ∧
    ((runClaudeFull [] 1 (ExitPath.thrown true "")).cleanupFired = 1 ∧
      regLookup (runClaudeFull [] 1 (ExitPath.thrown true "")).reg 1 = none) :=
  ⟨rfl, c9_every_exit_path_cleans_up [] 1 (ExitPath.thrown true "") rfl⟩

/-! ## Submission queue and drain loop (`src/bot.ts`)

`handlePrompt` pushes `{ prompt, ctx, targetCwd }` onto the per-user
queue when the key is busy; after each run, `runAndDrain` does
`const idx = state.queue.findIndex((q) => q.targetCwd === cwd)` and, if
found, `state.queue.splice(idx, 1)` — removing exactly that one entry
and running its prompt — repeating until no entry for `cwd` remains.
The Telegram reply context carried by an entry is irrelevant to the
claims and is omitted. -/

/-- A queued message (`QueuedMessage` in `src/bot.ts`, without the
reply context). -/
structure QEntry where
  prompt : String
  targetCwd : String
deriving DecidableEq, Repr

/-- Embeds `findIndex` plus `splice(idx, 1)`: remove the first entry whose
`targetCwd` equals `cwd`, returning it and the remaining queue. -/
def drainNext : List QEntry → String → Option QEntry × List QEntry
  | [], _ => (none, [])
  | e :: rest, cwd =>
      if e.targetCwd == cwd then (some e, rest)
      else
        ((drainNext rest cwd).1, e :: (drainNext rest cwd).2)

theorem drainNext_filter_ne (cwd : String) :
    ∀ (q : List QEntry),
    (drainNext q cwd).2.filter (fun e => !(e.targetCwd == cwd)) =
      q.filter (fun e => !(e.targetCwd == cwd)) := by
  intro q
  induction q with
  | nil => rfl
  | cons e rest ih =>
      by_cases h : e.targetCwd == cwd
      · simp [drainNext, h]
      · simp only [Bool.not_eq_true] at h
        simp [drainNext, h, ih]

theorem drainNext_sublist (cwd : String) :
    ∀ (q : List QEntry), List.Sublist (drainNext q cwd).2 q := by
  intro q
  induction q with
  | nil => simp [drainNext]
  | cons e rest ih =>
      by_cases h : e.targetCwd == cwd
      · simp [drainNext, h]
      · simp only [Bool.not_eq_true] at h
        simp only [drainNext, h, if_neg]
        exact List.Sublist.cons₂ e ih

theorem drainNext_head (cwd : String) :
    ∀ (q : List QEntry),
    (drainNext q cwd).1 = (q.filter (fun e => e.targetCwd == cwd)).head? := by
  intro q
  induction q with
  | nil => rfl
  | cons e rest ih =>
      by_cases h : e.targetCwd == cwd
      · simp [drainNext, h]
      · simp only [Bool.not_eq_true] at h
        simp [drainNext, h, ih]

theorem drainNext_none_eq (cwd : String) :
    ∀ (q : List QEntry), (drainNext q cwd).1 = none → (drainNext q cwd).2 = q := by
  intro q
  induction q with
  | nil => intro _; rfl
  | cons e rest ih =>
      intro hn
      by_cases h : e.targetCwd == cwd
      · simp [drainNext, h] at hn
      · simp only [Bool.not_eq_true] at h
        simp only [drainNext, h, Bool.false_eq_true, if_false] at hn ⊢
        rw [ih hn]

theorem drainNext_some_length (cwd : String) :
    ∀ (q : List QEntry) (e : QEntry),
    (drainNext q cwd).1 = some e → q.length = (drainNext q cwd).2.length + 1 := by
  intro q
  induction q with
  | nil => intro e h; simp [drainNext] at h
  | cons x rest ih =>
      intro e hs
      by_cases h : x.targetCwd == cwd
      · simp [drainNext, h]
      · simp only [Bool.not_eq_true] at h
        simp only [drainNext, h, if_neg] at hs ⊢
        simp [ih e hs]

theorem drainNext_some_filter_eq (cwd : String) :
    ∀ (q : List QEntry) (e : QEntry),
    (drainNext q cwd).1 = some e →
    q.filter (fun x => x.targetCwd == cwd) =
      e :: (drainNext q cwd).2.filter (fun x => x.targetCwd == cwd) := by
  intro q
  induction q with
  | nil => intro e h; simp [drainNext] at h
  | cons x rest ih =>
      intro e hs
      by_cases h : x.targetCwd == cwd
      · simp only [drainNext, h, if_pos] at hs ⊢
        simp only [Option.some.injEq] at hs
        subst hs
        simp [List.filter_cons, h]
      · simp only [Bool.not_eq_true] at h
        simp only [drainNext, h, Bool.false_eq_true, if_false] at hs ⊢
        simp only [List.filter_cons, h, Bool.false_eq_true, if_false]
        exact ih e hs

/-- Claim C10: Draining for a working directory `cwd` removes from the
shared queue only entries whose `targetCwd` equals `cwd`, one entry per
completed run (the first such entry, in submission order); every queue
entry targeting any other directory is left in the queue, and the
relative order of the remaining entries is unchanged (the remaining
queue is a sublist of the original). -/
theorem c10_drain_scoped_to_cwd (q : List QEntry) (cwd : String) :
    (drainNext q cwd).2.filter (fun e => !(e.targetCwd == cwd)) =
      q.filter (fun e => !(e.targetCwd == cwd)) ∧
    List.Sublist (drainNext q cwd).2 q ∧
    (drainNext q cwd).1 = (q.filter (fun e => e.targetCwd == cwd)).head? ∧
    (∀ e, (drainNext q cwd).1 = some e → q.length = (drainNext q cwd).2.length + 1) ∧
    ((drainNext q cwd).1 = none → (drainNext q cwd).2 = q) :=
  ⟨drainNext_filter_ne cwd q, drainNext_sublist cwd q, drainNext_head cwd q,
    fun e h => drainNext_some_length cwd q e h, drainNext_none_eq cwd q⟩

/-- The `while (true)` loop of `runAndDrain`, fuel-indexed: after each
completed run it removes the first queued entry for `cwd` (if any) and
runs its prompt, until none remains.  Each iteration removes exactly one
entry, so `q.length` fuel always suffices (the correctness theorem below
shows the loop indeed finishes with no `cwd` entry left).  Returns the
prompts run by draining, in order, and the final queue. -/
def drainLoopFuel : Nat → List QEntry → String → List String × List QEntry
  | 0, q, _ => ([], q)
  | n + 1, q, cwd =>
      match drainNext q cwd with
      | (none, _) => ([], q)
      | (some e, q') =>
          (e.prompt :: (drainLoopFuel n q' cwd).1, (drainLoopFuel n q' cwd).2)

/-- The drain loop of `runAndDrain` run to completion. -/
def drainLoop (q : List QEntry) (cwd : String) : List String × List QEntry :=
  drainLoopFuel q.length q cwd

theorem drainLoopFuel_spec (cwd : String) :
    ∀ (n : Nat) (q : List QEntry), q.length ≤ n →
    drainLoopFuel n q cwd =
      ((q.filter (fun e => e.targetCwd == cwd)).map (fun e => e.prompt),
       q.filter (fun e => !(e.targetCwd == cwd))) := by
  intro n
  induction n with
  | zero =>
      intro q hq
      have : q = [] := List.eq_nil_of_length_eq_zero (Nat.le_zero.1 hq)
      subst this
      simp [drainLoopFuel]
  | succ n ih =>
      intro q hq
      cases hd : drainNext q cwd with
      | mk r q' =>
        cases r with
        | none =>
            have h1 : (drainNext q cwd).1 = none := by rw [hd]
            have hfe : q.filter (fun e => e.targetCwd == cwd) = [] := by
              have := drainNext_head cwd q
              rw [h1] at this
              exact List.head?_eq_none_iff.1 this.symm
            have hall : ∀ e ∈ q, ¬((fun e => e.targetCwd == cwd) e = true) :=
              List.filter_eq_nil_iff.1 hfe
            have hfn : q.filter (fun e => !(e.targetCwd == cwd)) = q := by
              rw [List.filter_eq_self]
              intro a ha
              have hx := hall a ha
              simp only [Bool.not_eq_true] at hx
              simp [hx]
            simp only [drainLoopFuel, hd, hfe, hfn, List.map_nil]
        | some e =>
            have h1 : (drainNext q cwd).1 = some e := by rw [hd]
            have h2 : (drainNext q cwd).2 = q' := by rw [hd]
            have hlen : q.length = q'.length + 1 := by
              have := drainNext_some_length cwd q e h1
              rwa [h2] at this
            have hq' : q'.length ≤ n := by omega
            have hfe : q.filter (fun x => x.targetCwd == cwd) =
                e :: q'.filter (fun x => x.targetCwd == cwd) := by
              have := drainNext_some_filter_eq cwd q e h1
              rwa [h2] at this
            have hfn : q'.filter (fun x => !(x.targetCwd == cwd)) =
                q.filter (fun x => !(x.targetCwd == cwd)) := by
              have := drainNext_filter_ne cwd q
              rwa [h2] at this
            simp only [drainLoopFuel, hd, ih q' hq', hfe, hfn, List.map_cons]

/-- Modelled from the spec (for comparison only — this is the behaviour
the claim asserts, not the code's): the spec's drain removes all queued
entries for the key at once and joins their payloads with an explicit
separator into one prompt; the separator text is the `"\n\n---\n\n"`
recorded in the repository's issue-23 design notes. -/
def specBatchedPrompt (q : List QEntry) (cwd : String) : String :=
  String.intercalate "\n\n---\n\n"
    ((q.filter (fun e => e.targetCwd == cwd)).map (fun e => e.prompt))

/-- Counterexample to claim C2 as stated: with two entries (`"a"` then
`"b"`, both for `"w"`) queued when a run finishes, the code removes only
the first entry — the next run's prompt is `"a"`, not the joined batch
`"a\n\n---\n\nb"` — and the queue is left non-empty, so the queued
entries are not all removed atomically into a single combined prompt. -/
theorem c2_counterexample :
    drainNext [QEntry.mk "a" "w", QEntry.mk "b" "w"] "w" =
      (some (QEntry.mk "a" "w"), [QEntry.mk "b" "w"]) ∧
    (drainNext [QEntry.mk "a" "w", QEntry.mk "b" "w"] "w").2 ≠ [] ∧
    (QEntry.mk "a" "w").prompt ≠
      specBatchedPrompt [QEntry.mk "a" "w", QEntry.mk "b" "w"] "w" ∧
    (drainLoop [QEntry.mk "a" "w", QEntry.mk "b" "w"] "w").1 = ["a", "b"] := by
  refine ⟨rfl, by decide, by decide, rfl⟩

/-- Claim C2, amended: when a run for a key finishes and that key's queue
is non-empty, the drain loop removes one entry per completed run — the
first queued entry for that working directory, whose payload alone
becomes the next run's prompt — and repeats until no entry for the key
remains.  Over the whole loop this is strict FIFO with nothing dropped
and nothing reordered: the prompts run are exactly the queued payloads
for that key in submission order (each as its own run, not joined by a
separator), and the final queue holds exactly the entries for other
keys. -/
theorem c2_drain_is_fifo_one_entry_per_run (q : List QEntry) (cwd : String) :
    (drainLoop q cwd).1 =
      (q.filter (fun e => e.targetCwd == cwd)).map (fun e => e.prompt) ∧
    (drainLoop q cwd).2 = q.filter (fun e => !(e.targetCwd == cwd)) := by
  have h := drainLoopFuel_spec cwd q.length q (Nat.le_refl _)
  unfold drainLoop
  rw [h]
  exact ⟨rfl, rfl⟩

/-! ## Renderer split point (`flushText` in `src/telegram.ts`)

```
if (text.length > MAX_MSG_LENGTH) {
  const cutPoint = text.lastIndexOf("\n", MAX_MSG_LENGTH)
  const splitAt = cutPoint > MAX_MSG_LENGTH * 0.5 ? cutPoint : MAX_MSG_LENGTH
  const chunk = text.slice(0, splitAt)
  accumulated = text.slice(splitAt)
  …
}
``` -/

/-- Telegram's message length limit as used by the renderer. -/
def MAX_MSG_LENGTH : Nat := 4000

/-- Index of the last `'\n'` in a character list, if any. -/
def lastNL? : List Char → Option Nat
  | [] => none
  | c :: rest =>
      match lastNL? rest with
      | some i => some (i + 1)
      | none => if c = '\n' then some 0 else none

/-- Embeds `text.lastIndexOf("\n", pos)`: it searches the indices `≤ pos` only, so
it equals the last newline of `text.take (pos + 1)` (with `-1`, i.e.
`none`, when there is none). -/
def jsLastIndexOfNL (text : List Char) (pos : Nat) : Option Nat :=
  lastNL? (text.take (pos + 1))

/-- The `splitAt` computed by `flushText` for oversized text:
the last newline at or before the limit if it sits beyond half the
limit, else a hard cut exactly at the limit (`cutPoint` is `-1`, hence
not `> 2000`, when no newline exists). -/
def computeSplitAt (text : List Char) : Nat :=
  match jsLastIndexOfNL text MAX_MSG_LENGTH with
  | some cutPoint => if cutPoint > MAX_MSG_LENGTH / 2 then cutPoint else MAX_MSG_LENGTH
  | none => MAX_MSG_LENGTH

/-- The split performed by `flushText` when the accumulated text exceeds
the limit: the finalized first chunk and the remainder that re-opens a
new message. -/
def splitOversized (text : List Char) : List Char × List Char :=
  (text.take (computeSplitAt text), text.drop (computeSplitAt text))

theorem lastNL?_eq_none : ∀ (l : List Char), lastNL? l = none → '\n' ∉ l := by
  intro l
  induction l with
  | nil => intro _ h; simp at h
  | cons c rest ih =>
      intro h
      unfold lastNL? at h
      cases hr : lastNL? rest with
      | some i => rw [hr] at h; simp at h
      | none =>
          rw [hr] at h
          by_cases hc : c = '\n'
          · simp [hc] at h
          · intro hm
            rcases List.mem_cons.1 hm with hm | hm
            · exact hc hm.symm
            · exact ih hr hm

theorem lastNL?_of_not_mem : ∀ (l : List Char), '\n' ∉ l → lastNL? l = none := by
  intro l
  induction l with
  | nil => intro _; rfl
  | cons c rest ih =>
      intro h
      have hc : ¬ c = '\n' := fun e => h (by simp [e])
      have hr : '\n' ∉ rest := fun m => h (List.mem_cons_of_mem _ m)
      unfold lastNL?
      rw [ih hr]
      simp [hc]

theorem lastNL?_get : ∀ (l : List Char) (i : Nat),
    lastNL? l = some i → l.get? i = some '\n' := by
  intro l
  induction l with
  | nil => intro i h; simp [lastNL?] at h
  | cons c rest ih =>
      intro i h
      unfold lastNL? at h
      cases hr : lastNL? rest with
      | some j =>
          rw [hr] at h
          simp only [Option.some.injEq] at h
          subst h
          simpa using ih j hr
      | none =>
          rw [hr] at h
          by_cases hc : c = '\n'
          · simp only [hc, if_pos] at h
            simp only [Option.some.injEq] at h
            subst h
            simp [hc]
          · simp [hc] at h

theorem lastNL?_last : ∀ (l : List Char) (i : Nat),
    lastNL? l = some i → ∀ j, i < j → l.get? j ≠ some '\n' := by
  intro l
  induction l with
  | nil => intro i h; simp [lastNL?] at h
  | cons c rest ih =>
      intro i h j hij
      unfold lastNL? at h
      cases hr : lastNL? rest with
      | some k =>
          rw [hr] at h
          simp only [Option.some.injEq] at h
          subst h
          cases j with
          | zero => omega
          | succ j' =>
              simp only [List.get?_cons_succ]
              exact ih k hr j' (by omega)
      | none =>
          rw [hr] at h
          by_cases hc : c = '\n'
          · simp only [hc, if_pos] at h
            simp only [Option.some.injEq] at h
            subst h
            cases j with
            | zero => omega
            | succ j' =>
                simp only [List.get?_cons_succ]
                intro hg
                exact lastNL?_eq_none rest hr (List.get?_mem hg)
          · simp [hc] at h

/-- Counterexample to claim C5 as stated: the text `'a' '\n' 'b'⁴⁰⁰⁰`
(length 4002) exceeds the limit and has a newline at index 1 ≤ 4000,
yet `flushText` chooses the hard cut at exactly 4000 — not the last
newline before the limit — because that newline does not lie beyond
half the limit. -/
theorem c5_counterexample :
    ('a' :: '\n' :: List.replicate 4000 'b').length > MAX_MSG_LENGTH ∧
    ('a' :: '\n' :: List.replicate 4000 'b').get? 1 = some '\n' ∧
    (1 : Nat) ≤ MAX_MSG_LENGTH ∧
    computeSplitAt ('a' :: '\n' :: List.replicate 4000 'b') = MAX_MSG_LENGTH ∧
    computeSplitAt ('a' :: '\n' :: List.replicate 4000 'b') ≠ 1 := by
  have hrep : lastNL? (List.replicate 3999 'b') = none := by
    refine lastNL?_of_not_mem _ ?_
    intro hm
    have := List.eq_of_mem_replicate hm
    simp at this
  have htake : ('a' :: '\n' :: List.replicate 4000 'b').take (MAX_MSG_LENGTH + 1) =
      'a' :: '\n' :: List.replicate 3999 'b' := by
    rw [show MAX_MSG_LENGTH + 1 = 3999 + 1 + 1 from rfl]
    rw [List.take_succ_cons, List.take_succ_cons, List.take_replicate]
    norm_num
  have hinner : lastNL? ('\n' :: List.replicate 3999 'b') = some 0 := by
    unfold lastNL?
    rw [hrep]
    simp
  have hlast : jsLastIndexOfNL ('a' :: '\n' :: List.replicate 4000 'b') MAX_MSG_LENGTH =
      some 1 := by
    unfold jsLastIndexOfNL
    rw [htake]
    unfold lastNL?
    rw [hinner]
  have hsplit : computeSplitAt ('a' :: '\n' :: List.replicate 4000 'b') = MAX_MSG_LENGTH := by
    unfold computeSplitAt
    rw [hlast]
    norm_num [MAX_MSG_LENGTH]
  have hlength : ('a' :: '\n' :: List.replicate 4000 'b').length > MAX_MSG_LENGTH := by
    rw [List.length_cons, List.length_cons, List.length_replicate]
    norm_num [MAX_MSG_LENGTH]
  refine ⟨hlength, rfl, by norm_num [MAX_MSG_LENGTH], hsplit, ?_⟩
  rw [hsplit]
  norm_num [MAX_MSG_LENGTH]

/-- Claim C5, amended: when accumulated renderer text exceeds the
4000-character limit, the split point is the last newline at or before
the limit **provided that newline lies beyond half the limit
(index > 2000)**; otherwise — in particular whenever no newline exists
in `(2000, 4000]`, even if one exists earlier — a hard cut exactly at
the limit is used.  The finalized first message carries the text up to
the split point and the remainder opens a new message (their
concatenation is the original text). -/
theorem c5_split_point_amended (text : List Char)
    (hlen : text.length > MAX_MSG_LENGTH) :
    ((splitOversized text).1 ++ (splitOversized text).2 = text) ∧
    (∀ i, jsLastIndexOfNL text MAX_MSG_LENGTH = some i → MAX_MSG_LENGTH / 2 < i →
      computeSplitAt text = i ∧ text.get? i = some '\n' ∧
      ∀ j, i < j → j ≤ MAX_MSG_LENGTH → text.get? j ≠ some '\n') ∧
    ((∀ j, MAX_MSG_LENGTH / 2 < j → j ≤ MAX_MSG_LENGTH → text.get? j ≠ some '\n') →
      computeSplitAt text = MAX_MSG_LENGTH) := by
  refine ⟨List.take_append_drop _ _, ?_, ?_⟩
  · intro i hi hhalf
    have hget : text.get? i = some '\n' := by
      have h1 := lastNL?_get _ _ hi
      have hilt : i < MAX_MSG_LENGTH + 1 := by
        by_contra hge
        rw [List.get?_eq_none.2 ?_] at h1
        · exact Option.noConfusion h1
        · calc (text.take (MAX_MSG_LENGTH + 1)).length ≤ MAX_MSG_LENGTH + 1 :=
                by simpa using List.length_take_le _ _
            _ ≤ i := by omega
      rwa [List.get?_take hilt] at h1
    refine ⟨?_, hget, ?_⟩
    · unfold computeSplitAt
      rw [hi]
      simp [hhalf]
    · intro j hij hjle hg
      have hjlt : j < MAX_MSG_LENGTH + 1 := by omega
      exact lastNL?_last _ _ hi j hij (by rwa [List.get?_take hjlt])
  · intro hno
    unfold computeSplitAt jsLastIndexOfNL
    cases hl : lastNL? (text.take (MAX_MSG_LENGTH + 1)) with
    | none => rfl
    | some i =>
        have hget := lastNL?_get _ _ hl
        have hilt : i < MAX_MSG_LENGTH + 1 := by
          by_contra hge
          rw [List.get?_eq_none.2 ?_] at hget
          · exact Option.noConfusion hget
          · calc (text.take (MAX_MSG_LENGTH + 1)).length ≤ MAX_MSG_LENGTH + 1 :=
                  by simpa using List.length_take_le _ _
              _ ≤ i := by omega
        have hgt : text.get? i = some '\n' := by
          rwa [List.get?_take hilt] at hget
        have hle : ¬ MAX_MSG_LENGTH / 2 < i := by
          intro hhalf
          exact hno i hhalf (by omega) hgt
        simp [hle]

/-- Witness for the amended C5 at a concrete oversized text. -/
theorem c5_split_point_amended_witness :
    (List.replicate 4001 'b').length > MAX_MSG_LENGTH ∧
    ((splitOversized (List.replicate 4001 'b')).1 ++
        (splitOversized (List.replicate 4001 'b')).2 = List.replicate 4001 'b') :=
  ⟨by rw [List.length_replicate]; norm_num [MAX_MSG_LENGTH],
   (c5_split_point_amended (List.replicate 4001 'b')
      (by rw [List.length_replicate]; norm_num [MAX_MSG_LENGTH])).1⟩

/-! ## Formatted-edit fallback (`safeEditMessage` in `src/telegram.ts`)

The Telegram API call `editMessageText` either succeeds or throws an
error whose `description` may contain `"message is not modified"`
(redundant edit), `"message can't be edited"`, or anything else.  The
two calls `safeEditMessage` may issue (HTML first, then plain text) are
driven by the outcomes the platform would return for them. -/

/-- Outcome of one `editMessageText` call, as discriminated by
`safeEditMessage`'s catch handlers. -/
inductive EditOutcome where
  | success
  | notModified
  | cantEdit
  | failed (description : String)
deriving DecidableEq, Repr

/-- One attempted `editMessageText` call: the content sent and whether
`parse_mode: "HTML"` was set. -/
structure EditCall where
  content : String
  html : Bool
deriving DecidableEq, Repr

/-- Embeds `text || "..."` (JS falsiness of the empty string). -/
def displayTextOf (text : String) : String :=
  if text = "" then "..." else text

/-- Embeds `safeEditMessage(ctx, chatId, messageId, text, rawText?)`: try the
HTML edit; a `"message is not modified"` / `"message can't be edited"`
rejection counts as success; any other rejection retries the same
content as an unformatted plain-text edit (`rawText ?? displayText`),
whose own not-modified/can't-edit rejections are swallowed; only an
unrelated error of the plain retry propagates.  Returns the calls
attempted and `Except` of the boolean result (`true` = HTML stands). -/
def safeEditMessage (text : String) (rawText : Option String)
    (htmlOutcome plainOutcome : EditOutcome) :
    List EditCall × Except String Bool :=
  let displayText := displayTextOf text
  match htmlOutcome with
  | .success => ([⟨displayText, true⟩], .ok true)
  | .notModified => ([⟨displayText, true⟩], .ok true)
  | .cantEdit => ([⟨displayText, true⟩], .ok true)
  | .failed _ =>
      let plainContent := rawText.getD displayText
      match plainOutcome with
      | .success => ([⟨displayText, true⟩, ⟨plainContent, false⟩], .ok false)
      | .notModified => ([⟨displayText, true⟩, ⟨plainContent, false⟩], .ok false)
      | .cantEdit => ([⟨displayText, true⟩, ⟨plainContent, false⟩], .ok false)
      | .failed d => ([⟨displayText, true⟩, ⟨plainContent, false⟩], .error d)

/-- Claim C8: the function never surfaces a failure when the only
error is a `"message is not modified"` response to a redundant edit —
it is treated as success, whether it answers the HTML attempt or the
plain retry — and when the platform rejects the HTML-formatted payload
with any other error, it retries the same content as an unformatted
plain-text edit (the raw text when given, else the displayed text, with
no parse mode) instead of propagating that error. -/
theorem c8_edit_fallback_and_idempotence (text : String) (rawText : Option String)
    (plainOutcome : EditOutcome) (d : String) :
    (safeEditMessage text rawText .notModified plainOutcome).2 = .ok true ∧
    (safeEditMessage text rawText (.failed d) .notModified).2 = .ok false ∧
    (safeEditMessage text rawText (.failed d) plainOutcome).1 =
      [⟨displayTextOf text, true⟩, ⟨rawText.getD (displayTextOf text), false⟩] ∧
    (safeEditMessage text rawText (.failed d) .success).2 = .ok false := by
  refine ⟨rfl, rfl, ?_, rfl⟩
  cases plainOutcome <;> rfl

/-! ## Workspace-keyed registry (claim C4)

`src/bot.ts` calls `hasActiveProcess(userId, effectiveCwd)` and
`stopClaude(userId, cwd)` with a `(user, working-directory)` pair, but
the revision of `claude.ts` exporting those two-argument functions is
not under `src/`; the `claude.ts` files present are earlier revisions
keyed by the user id alone.  The keyed registry is therefore modelled
from the spec (§3 `ConcurrencyKey`, §4.1 key→handle map); the
`handlePrompt` busy check itself is embedded from `src/bot.ts`. -/

/-- Modelled from the spec: the Process Registry's key→handle map with
`ConcurrencyKey = (actor identity, workspace path)`; `spawn` registers
the key, teardown removes it, and a handle is live while its
cancellation token is not aborted. -/
def KeyedRegistry := Nat × String → Option ProcEntry

/-- Modelled from the spec: `acquireOrReject`'s liveness test, as called
by `src/bot.ts` (`hasActiveProcess(userId, effectiveCwd)`): the key has
an entry whose controller is not aborted. -/
def hasActiveProcess (reg : KeyedRegistry) (userId : Nat) (cwd : String) : Bool :=
  match reg (userId, cwd) with
  | some e => !e.aborted
  | none => false

/-- Modelled from the spec: registering a fresh live handle under a key
(the map update performed at spawn). -/
def keyedRegister (reg : KeyedRegistry) (key : Nat × String) (e : ProcEntry) :
    KeyedRegistry :=
  fun k => if k = key then some e else reg k

/-- Where `handlePrompt` (`src/bot.ts`) routes a submission: queued when
the key is busy, run immediately otherwise. -/
inductive PromptRoute where
  | queued
  | run
deriving DecidableEq, Repr

/-- The busy check of `handlePrompt` (`src/bot.ts` lines 674–680):
`if (hasActiveProcess(userId, effectiveCwd)) { queue } else { runAndDrain }`. -/
def handlePromptRoute (reg : KeyedRegistry) (userId : Nat) (cwd : String) : PromptRoute :=
  if hasActiveProcess reg userId cwd then .queued else .run

/-- Claim C4: Distinct concurrency keys are independent: a live run for
key `(actor, w1)` does not cause a submission by the same actor for a
different workspace `w2` to be rejected or queued as busy — it is run
immediately — and after that run spawns, the two keys each hold a live
handle simultaneously. -/
theorem c4_keys_independent (reg : KeyedRegistry) (u : Nat) (w1 w2 : String)
    (hw : w1 ≠ w2)
    (h1 : hasActiveProcess reg u w1 = true)
    (h2 : reg (u, w2) = none) :
    handlePromptRoute reg u w2 = .run ∧
    hasActiveProcess (keyedRegister reg (u, w2) freshEntry) u w1 = true ∧
    hasActiveProcess (keyedRegister reg (u, w2) freshEntry) u w2 = true := by
  have hne : ((u, w1) : Nat × String) ≠ (u, w2) := by
    intro he
    exact hw (congrArg Prod.snd he)
  refine ⟨?_, ?_, ?_⟩
  · unfold handlePromptRoute hasActiveProcess
    rw [h2]
    simp
  · unfold hasActiveProcess keyedRegister
    rw [if_neg hne]
    exact h1
  · unfold hasActiveProcess keyedRegister
    simp [freshEntry]

/-- Witness for C4: user 1 with a live run in `"w1"` and none in `"w2"`. -/
theorem c4_keys_independent_witness :
    ("w1" : String) ≠ "w2" ∧
    hasActiveProcess (fun k => if k = (1, "w1") then some freshEntry else none) 1 "w1" = true ∧
    (fun k => if k = ((1 : Nat), ("w1" : String)) then some freshEntry else none) (1, "w2") =
      none ∧
    (handlePromptRoute (fun k => if k = (1, "w1") then some freshEntry else none) 1 "w2" =
        PromptRoute.run ∧
      hasActiveProcess
        (keyedRegister (fun k => if k = (1, "w1") then some freshEntry else none)
          (1, "w2") freshEntry) 1 "w1" = true ∧
      hasActiveProcess
        (keyedRegister (fun k => if k = (1, "w1") then some freshEntry else none)
          (1, "w2") freshEntry) 1 "w2" = true) :=
  ⟨by decide, by decide, by decide,
   c4_keys_independent (fun k => if k = (1, "w1") then some freshEntry else none)
     1 "w1" "w2" (by decide) (by decide) (by decide)⟩

end TelegramClaude
